import Mathlib

/-!
Verification of the prompt-enhancement and negative-prompt pipeline of the
text-to-image repository (module `src/tokenizer.py`).

The embedded functions are `enhance_prompt`, `create_negative_prompt` and
`TextProcessor.preprocess_text`, translated directly from the Python source.
Python dictionaries holding the static tables are modelled as association
lists, and `dict.get(key, default)` as `find?` followed by a fallback.
-/

namespace Tokenizer

/-- The `negative_prompts` dictionary literal inside `create_negative_prompt`. -/
def negative_prompts : List (String × String) :=
  [("general", "blurry, low quality, distorted, deformed, bad anatomy, bad proportions"),
   ("portrait", "blurry, low quality, bad face, deformed face, extra limbs, bad anatomy"),
   ("landscape", "blurry, low quality, distorted horizon, bad composition, oversaturated"),
   ("object", "blurry, low quality, deformed, bad shape, unrealistic proportions")]

/-- Python `d.get(key, dflt)` on an association list. -/
def dictGetD (d : List (String × String)) (key : String) (dflt : String) : String :=
  match d.find? (fun kv => kv.1 == key) with
  | some kv => kv.2
  | none => dflt

/-- `create_negative_prompt(style)` from `src/tokenizer.py`:
`negative_prompts.get(style, negative_prompts["general"])`. -/
def create_negative_prompt (style : String) : String :=
  dictGetD negative_prompts style
    (dictGetD negative_prompts "general" "")

/-- The `enhancements` dictionary literal inside `enhance_prompt`. -/
def enhancements : List (String × String) :=
  [("realistic", "photorealistic, high quality, detailed, 8k resolution"),
   ("artistic", "artistic, beautiful, masterpiece, high quality"),
   ("professional", "professional photography, studio lighting, high quality"),
   ("cinematic", "cinematic lighting, dramatic, high quality, film photography")]

/-- `enhance_prompt(prompt, style)` from `src/tokenizer.py`:
`enhancement = enhancements.get(style, enhancements["realistic"])` and then
the f-string `f"{prompt}, {enhancement}"`. -/
def enhance_prompt (prompt : String) (style : String) : String :=
  let enhancement := dictGetD enhancements style
    (dictGetD enhancements "realistic" "")
  prompt ++ ", " ++ enhancement

/-- The whitespace characters recognized by Python's `str.strip()` and
`str.split()`: CPython's `Py_UNICODE_ISSPACE` set, i.e. tab through carriage
return (`\x09`-`\x0d`), the information separators `\x1c`-`\x1f`, space,
next line `\x85`, no-break space `\xa0`, Ogham space mark `\u1680`, the
fixed-width spaces `\u2000`-`\u200a`, line separator `\u2028`, paragraph
separator `\u2029`, narrow no-break space `\u202f`, medium mathematical
space `\u205f`, and ideographic space `\u3000`. -/
def isPySpace (c : Char) : Bool :=
  c == '\x09' || c == '\x0a' || c == '\x0b' || c == '\x0c' || c == '\x0d' ||
  c == '\x1c' || c == '\x1d' || c == '\x1e' || c == '\x1f' || c == '\x20' ||
  c == '\x85' || c == '\xa0' || c == '\u1680' ||
  c == '\u2000' || c == '\u2001' || c == '\u2002' || c == '\u2003' ||
  c == '\u2004' || c == '\u2005' || c == '\u2006' || c == '\u2007' ||
  c == '\u2008' || c == '\u2009' || c == '\u200a' ||
  c == '\u2028' || c == '\u2029' || c == '\u202f' || c == '\u205f' || c == '\u3000'

/-- Python `text.strip()` on the character list: drop whitespace from both ends. -/
def pyStrip (l : List Char) : List Char :=
  ((l.dropWhile isPySpace).reverse.dropWhile isPySpace).reverse

/-- Worker for `text.split()`: `acc` holds the current word reversed. -/
def pySplitAux : List Char → List Char → List (List Char)
  | [], acc => if acc = [] then [] else [acc.reverse]
  | c :: rest, acc =>
    if isPySpace c then
      if acc = [] then pySplitAux rest []
      else acc.reverse :: pySplitAux rest []
    else pySplitAux rest (c :: acc)

/-- Python `text.split()` with no separator: whitespace-delimited words,
empty pieces discarded. -/
def pySplit (l : List Char) : List (List Char) := pySplitAux l []

/-- Python `" ".join(ws)` on character lists. -/
def joinSpace : List (List Char) → List Char
  | [] => []
  | [w] => w
  | w :: ws => w ++ ' ' :: joinSpace ws

/-- `TextProcessor.preprocess_text(text)` from `src/tokenizer.py`:
`text = text.strip()`, then `text = " ".join(text.split())`, then
`if not text: text = "a simple image"`. -/
def preprocess_text (text : String) : String :=
  let stripped := pyStrip text.data
  let joined := joinSpace (pySplit stripped)
  if joined = [] then "a simple image" else String.mk joined

/-- No two adjacent whitespace characters occur in the list. -/
def NoWSRun (l : List Char) : Prop :=
  List.Chain' (fun a b => ¬(isPySpace a = true ∧ isPySpace b = true)) l

/-- Executable check for `NoWSRun`. -/
def noWSRunB : List Char → Bool
  | a :: b :: rest => (!(isPySpace a && isPySpace b)) && noWSRunB (b :: rest)
  | _ => true

/-- A character list in collapsed-whitespace form: it neither starts nor ends
with whitespace, contains no run of two adjacent whitespace characters, and
every whitespace character in it is a plain space. -/
def Collapsed (l : List Char) : Prop :=
  (∀ c ∈ l.head?, isPySpace c = false) ∧
  (∀ c ∈ l.getLast?, isPySpace c = false) ∧
  NoWSRun l ∧
  (∀ c ∈ l, isPySpace c = true → c = ' ')

end Tokenizer

namespace Tokenizer

/-! ### Helper lemmas shared between claims -/

/-- A dictionary lookup with default either yields a value stored in the
table or the supplied default. -/
theorem dictGetD_mem_or (d : List (String × String)) (k dflt : String) :
    dictGetD d k dflt ∈ d.map Prod.snd ∨ dictGetD d k dflt = dflt := by
  unfold dictGetD
  cases h : d.find? (fun kv => kv.1 == k) with
  | none => exact Or.inr rfl
  | some kv => exact Or.inl (List.mem_map_of_mem Prod.snd (List.mem_of_find?_eq_some h))

/-- `enhance_prompt` literally appends the looked-up enhancement. -/
theorem enhance_prompt_eq (p style : String) :
    enhance_prompt p style =
      p ++ ", " ++ dictGetD enhancements style (dictGetD enhancements "realistic" "") := rfl

/-- The enhancement chosen for any style string is one of the table values. -/
theorem enhancement_mem (style : String) :
    dictGetD enhancements style (dictGetD enhancements "realistic" "") ∈
      enhancements.map Prod.snd := by
  rcases dictGetD_mem_or enhancements style (dictGetD enhancements "realistic" "") with h | h
  · exact h
  · rw [h]; decide

/-- The negative prompt for any category string is one of the table values. -/
theorem negative_mem (category : String) :
    create_negative_prompt category ∈ negative_prompts.map Prod.snd := by
  unfold create_negative_prompt
  rcases dictGetD_mem_or negative_prompts category (dictGetD negative_prompts "general" "")
    with h | h
  · exact h
  · rw [h]; decide

/-- The first component of every append chain is a prefix of the result,
and the last component is a suffix (at the level of character lists). -/
theorem append_prefix_suffix (p m s : String) :
    p.data <+: (p ++ m ++ s).data ∧ s.data <:+ (p ++ m ++ s).data := by
  refine ⟨?_, ?_⟩
  · simp [List.append_assoc]
  · simpa [List.append_assoc] using List.suffix_append (p.data ++ m.data) s.data

/-- Every word produced by the split worker is nonempty and whitespace-free,
provided the accumulator only holds non-whitespace characters. -/
theorem pySplitAux_words (l : List Char) : ∀ acc : List Char,
    (∀ c ∈ acc, isPySpace c = false) →
    ∀ w ∈ pySplitAux l acc, w ≠ [] ∧ ∀ c ∈ w, isPySpace c = false := by
  induction l with
  | nil =>
    intro acc hacc w hw
    unfold pySplitAux at hw
    by_cases h : acc = []
    · simp [h] at hw
    · rw [if_neg h] at hw
      rcases List.mem_singleton.mp hw with rfl
      refine ⟨by simpa using h, fun c hc => hacc c (List.mem_reverse.mp hc)⟩
  | cons a rest ih =>
    intro acc hacc w hw
    unfold pySplitAux at hw
    by_cases hs : isPySpace a = true
    · rw [if_pos hs] at hw
      by_cases h : acc = []
      · rw [if_pos h] at hw
        exact ih [] (by simp) w hw
      · rw [if_neg h] at hw
        rcases List.mem_cons.mp hw with rfl | hw
        · exact ⟨by simpa using h, fun c hc => hacc c (List.mem_reverse.mp hc)⟩
        · exact ih [] (by simp) w hw
    · rw [if_neg hs] at hw
      refine ih (a :: acc) ?_ w hw
      intro c hc
      rcases List.mem_cons.mp hc with rfl | hc
      · exact Bool.eq_false_iff.mpr hs
      · exact hacc c hc

/-- Every word produced by `pySplit` is nonempty and whitespace-free. -/
theorem pySplit_words (l : List Char) :
    ∀ w ∈ pySplit l, w ≠ [] ∧ ∀ c ∈ w, isPySpace c = false :=
  pySplitAux_words l [] (by simp)

/-- The join of a nonempty word list starts with the first word. -/
theorem joinSpace_head (w : List Char) (ws : List (List Char)) (hw : w ≠ []) :
    (joinSpace (w :: ws)).head? = w.head? := by
  cases ws with
  | nil => rfl
  | cons v vs =>
    show (w ++ ' ' :: joinSpace (v :: vs)).head? = w.head?
    cases w with
    | nil => exact absurd rfl hw
    | cons a w' => rfl

/-- A list without whitespace characters has no whitespace run. -/
theorem noWSRun_of_spacefree (w : List Char) (hw : ∀ c ∈ w, isPySpace c = false) :
    NoWSRun w := by
  apply List.Pairwise.chain'
  apply List.pairwise_of_forall_mem_list
  intro a ha b _
  intro hab
  rw [hw a ha] at hab
  exact absurd hab.1 Bool.false_ne_true

/-- Joining nonempty whitespace-free words with single spaces yields a
collapsed-whitespace list. -/
theorem collapsed_joinSpace (ws : List (List Char))
    (h : ∀ w ∈ ws, w ≠ [] ∧ ∀ c ∈ w, isPySpace c = false) :
    Collapsed (joinSpace ws) := by
  induction ws with
  | nil => exact ⟨by simp [joinSpace], by simp [joinSpace], List.chain'_nil, by simp [joinSpace]⟩
  | cons w ws ih =>
    obtain ⟨hw, hwc⟩ := h w (List.mem_cons_self w ws)
    have hrest : ∀ v ∈ ws, v ≠ [] ∧ ∀ c ∈ v, isPySpace c = false :=
      fun v hv => h v (List.mem_cons_of_mem w hv)
    cases ws with
    | nil =>
      refine ⟨?_, ?_, noWSRun_of_spacefree w hwc, ?_⟩
      · exact fun c hc => hwc c (List.mem_of_mem_head? hc)
      · exact fun c hc => hwc c (List.mem_of_mem_getLast? hc)
      · intro c hc hsp
        rw [hwc c hc] at hsp
        exact absurd hsp Bool.false_ne_true
    | cons v vs =>
      have hJ := ih hrest
      obtain ⟨hv, hvc⟩ := hrest v (List.mem_cons_self v vs)
      have hJhead : (joinSpace (v :: vs)).head? = v.head? := joinSpace_head v vs hv
      have hJne : joinSpace (v :: vs) ≠ [] := by
        intro hnil
        rw [hnil] at hJhead
        cases v with
        | nil => exact hv rfl
        | cons a v' => simp at hJhead
      obtain ⟨hJh, hJl, hJr, hJs⟩ := hJ
      show Collapsed (w ++ ' ' :: joinSpace (v :: vs))
      refine ⟨?_, ?_, ?_, ?_⟩
      · intro c hc
        cases w with
        | nil => exact absurd rfl hw
        | cons a w' =>
          rcases hc
          exact hwc _ (List.mem_cons_self _ _)
      · intro c hc
        rw [List.getLast?_append_cons] at hc
        rw [show (' ' :: joinSpace (v :: vs)) = [' '] ++ joinSpace (v :: vs) from rfl,
          List.getLast?_append_of_ne_nil _ hJne] at hc
        exact hJl c hc
      · rw [NoWSRun, List.chain'_append]
        refine ⟨noWSRun_of_spacefree w hwc, ?_, ?_⟩
        · rw [List.chain'_cons']
          refine ⟨?_, hJr⟩
          intro y hy hab
          rw [hJhead] at hy
          rw [hvc y (List.mem_of_mem_head? hy)] at hab
          exact absurd hab.2 Bool.false_ne_true
        · intro x hx y hy hab
          rw [hwc x (List.mem_of_mem_getLast? hx)] at hab
          exact absurd hab.1 Bool.false_ne_true
      · intro c hc hsp
        rcases List.mem_append.mp hc with hc | hc
        · rw [hwc c hc] at hsp
          exact absurd hsp Bool.false_ne_true
        · rcases List.mem_cons.mp hc with rfl | hc
          · rfl
          · exact hJs c hc hsp

/-- The executable check implies the `Chain'` formulation. -/
theorem noWSRun_of_noWSRunB (l : List Char) (h : noWSRunB l = true) : NoWSRun l := by
  induction l with
  | nil => exact List.chain'_nil
  | cons a l ih =>
    cases l with
    | nil => rw [NoWSRun]; simp
    | cons b rest =>
      rw [noWSRunB, Bool.and_eq_true] at h
      rw [NoWSRun, List.chain'_cons]
      refine ⟨?_, ih h.2⟩
      intro hab
      rw [hab.1, hab.2] at h
      simp at h

/-- Stripping an all-whitespace list leaves nothing. -/
theorem pyStrip_all_space (l : List Char) (h : ∀ c ∈ l, isPySpace c = true) :
    pyStrip l = [] := by
  unfold pyStrip
  rw [List.dropWhile_eq_nil_iff.mpr h]
  rfl

/-- `preprocess_text` unfolded into its two branches. -/
theorem preprocess_text_branches (t : String) :
    preprocess_text t =
      if joinSpace (pySplit (pyStrip t.data)) = [] then "a simple image"
      else String.mk (joinSpace (pySplit (pyStrip t.data))) := rfl

end Tokenizer

namespace Tokenizer

/-! ### Claim theorems -/

/-- C1: for every prompt `p` and every recognized style, `enhance_prompt p style`
is exactly `p`, then the literal `", "`, then the suffix registered for that
style in the enhancement table; in particular it starts with `p` and ends with
that suffix. -/
theorem enhance_prompt_recognized (p style : String)
    (h : style = "realistic" ∨ style = "artistic" ∨ style = "professional" ∨
         style = "cinematic") :
    ∃ suffix : String, (style, suffix) ∈ enhancements ∧
      enhance_prompt p style = p ++ ", " ++ suffix ∧
      p.data <+: (enhance_prompt p style).data ∧
      suffix.data <:+ (enhance_prompt p style).data := by
  rcases h with h | h | h | h <;> subst h
  · exact ⟨_, by decide, rfl, append_prefix_suffix p ", "
      "photorealistic, high quality, detailed, 8k resolution"⟩
  · exact ⟨_, by decide, rfl, append_prefix_suffix p ", "
      "artistic, beautiful, masterpiece, high quality"⟩
  · exact ⟨_, by decide, rfl, append_prefix_suffix p ", "
      "professional photography, studio lighting, high quality"⟩
  · exact ⟨_, by decide, rfl, append_prefix_suffix p ", "
      "cinematic lighting, dramatic, high quality, film photography"⟩

/-- C1 witness at `p = "a cat"`, `style = "artistic"`. -/
theorem enhance_prompt_recognized_witness :
    ∃ suffix : String, ("artistic", suffix) ∈ enhancements ∧
      enhance_prompt "a cat" "artistic" = "a cat" ++ ", " ++ suffix ∧
      ("a cat" : String).data <+: (enhance_prompt "a cat" "artistic").data ∧
      suffix.data <:+ (enhance_prompt "a cat" "artistic").data :=
  enhance_prompt_recognized "a cat" "artistic" (Or.inr (Or.inl rfl))

/-- C2: a style outside the recognized set falls back to the `"realistic"`
entry, so the result coincides with `enhance_prompt p "realistic"`. -/
theorem enhance_prompt_unknown_style (p style : String)
    (h : style ≠ "realistic" ∧ style ≠ "artistic" ∧ style ≠ "professional" ∧
         style ≠ "cinematic") :
    enhance_prompt p style = enhance_prompt p "realistic" := by
  obtain ⟨h1, h2, h3, h4⟩ := h
  have e1 : ("realistic" == style) = false := beq_false_of_ne (Ne.symm h1)
  have e2 : ("artistic" == style) = false := beq_false_of_ne (Ne.symm h2)
  have e3 : ("professional" == style) = false := beq_false_of_ne (Ne.symm h3)
  have e4 : ("cinematic" == style) = false := beq_false_of_ne (Ne.symm h4)
  simp [enhance_prompt, dictGetD, enhancements, List.find?, e1, e2, e3, e4]

/-- C2 witness at `p = "a cat"`, `style = "bogus"`. -/
theorem enhance_prompt_unknown_style_witness :
    enhance_prompt "a cat" "bogus" = enhance_prompt "a cat" "realistic" :=
  enhance_prompt_unknown_style "a cat" "bogus" (by decide)

/-- C3: every recognized category maps to its own fixed table entry, and in
particular the `"portrait"` entry is the exact advertised string. -/
theorem create_negative_prompt_recognized (category : String)
    (h : category = "general" ∨ category = "portrait" ∨ category = "landscape" ∨
         category = "object") :
    (category, create_negative_prompt category) ∈ negative_prompts ∧
    create_negative_prompt "portrait" =
      "blurry, low quality, bad face, deformed face, extra limbs, bad anatomy" := by
  refine ⟨?_, by decide⟩
  rcases h with h | h | h | h <;> subst h <;> decide

/-- C3 witness at `category = "portrait"`. -/
theorem create_negative_prompt_recognized_witness :
    ("portrait", create_negative_prompt "portrait") ∈ negative_prompts ∧
    create_negative_prompt "portrait" =
      "blurry, low quality, bad face, deformed face, extra limbs, bad anatomy" :=
  create_negative_prompt_recognized "portrait" (Or.inr (Or.inl rfl))

/-- C4: a category outside the recognized set silently falls back to the
`"general"` entry. -/
theorem create_negative_prompt_unknown (category : String)
    (h : category ≠ "general" ∧ category ≠ "portrait" ∧ category ≠ "landscape" ∧
         category ≠ "object") :
    create_negative_prompt category = create_negative_prompt "general" ∧
    create_negative_prompt category =
      "blurry, low quality, distorted, deformed, bad anatomy, bad proportions" := by
  obtain ⟨h1, h2, h3, h4⟩ := h
  have e1 : ("general" == category) = false := beq_false_of_ne (Ne.symm h1)
  have e2 : ("portrait" == category) = false := beq_false_of_ne (Ne.symm h2)
  have e3 : ("landscape" == category) = false := beq_false_of_ne (Ne.symm h3)
  have e4 : ("object" == category) = false := beq_false_of_ne (Ne.symm h4)
  constructor <;>
    simp [create_negative_prompt, dictGetD, negative_prompts, List.find?, e1, e2, e3, e4]

/-- C4 witness at `category = "unknown-category"`. -/
theorem create_negative_prompt_unknown_witness :
    create_negative_prompt "unknown-category" = create_negative_prompt "general" ∧
    create_negative_prompt "unknown-category" =
      "blurry, low quality, distorted, deformed, bad anatomy, bad proportions" :=
  create_negative_prompt_unknown "unknown-category" (by decide)

/-- C5: both operations are total over arbitrary strings: every call returns a
string built from a table entry — `enhance_prompt` appends some stored suffix
and `create_negative_prompt` returns some stored entry, so the lookup always
resolves and no error branch exists. -/
theorem prompt_functions_total (p style category : String) :
    (∃ suffix, suffix ∈ enhancements.map Prod.snd ∧
       enhance_prompt p style = p ++ ", " ++ suffix) ∧
    create_negative_prompt category ∈ negative_prompts.map Prod.snd := by
  exact ⟨⟨_, enhancement_mem style, enhance_prompt_eq p style⟩, negative_mem category⟩

/-- C6: `enhance_prompt` performs no trimming or normalization of the prompt:
for every `p` (whitespace included) the result is `p` followed verbatim by the
suffix, and the empty prompt yields a string beginning with `", "`. -/
theorem enhance_prompt_no_trimming (p : String) :
    enhance_prompt p "realistic" =
      p ++ ", photorealistic, high quality, detailed, 8k resolution" ∧
    enhance_prompt "   " "realistic" =
      "   , photorealistic, high quality, detailed, 8k resolution" ∧
    enhance_prompt "" "realistic" =
      ", photorealistic, high quality, detailed, 8k resolution" := by
  refine ⟨?_, by decide, by decide⟩
  have : (", " : String) ++ "photorealistic, high quality, detailed, 8k resolution" =
      ", photorealistic, high quality, detailed, 8k resolution" := by decide
  rw [enhance_prompt_eq, String.append_assoc]
  rw [show dictGetD enhancements "realistic" (dictGetD enhancements "realistic" "") =
    "photorealistic, high quality, detailed, 8k resolution" from rfl, this]

/-- C7: both operations are deterministic functions of their arguments alone:
calls with equal arguments yield equal-by-value results, with no dependence on
call order or hidden state. -/
theorem prompt_functions_deterministic (p₁ p₂ s₁ s₂ c₁ c₂ : String)
    (hp : p₁ = p₂) (hs : s₁ = s₂) (hc : c₁ = c₂) :
    enhance_prompt p₁ s₁ = enhance_prompt p₂ s₂ ∧
    create_negative_prompt c₁ = create_negative_prompt c₂ := by
  subst hp; subst hs; subst hc; exact ⟨rfl, rfl⟩

/-- C7 witness at concrete equal argument pairs. -/
theorem prompt_functions_deterministic_witness :
    enhance_prompt "dog" "artistic" = enhance_prompt "dog" "artistic" ∧
    create_negative_prompt "object" = create_negative_prompt "object" :=
  prompt_functions_deterministic "dog" "dog" "artistic" "artistic" "object" "object"
    rfl rfl rfl

/-- C8: the concrete scenario from the spec. -/
theorem enhance_cute_dog_cinematic :
    enhance_prompt "a cute dog" "cinematic" =
      "a cute dog, cinematic lighting, dramatic, high quality, film photography" := by
  decide

/-- C9: every enhancement-table value contains `"high quality"`, so every
`enhance_prompt` output contains it as a substring; every negative-table value
begins with `"blurry, low quality"`, so every `create_negative_prompt` output
begins with it. -/
theorem prompt_table_invariants (p style category : String) :
    ("high quality" : String).data <:+: (enhance_prompt p style).data ∧
    ("blurry, low quality" : String).data <+: (create_negative_prompt category).data := by
  constructor
  · have hq : ∀ e ∈ enhancements.map Prod.snd,
        ("high quality" : String).data <:+: e.data := by decide
    have hmem := enhancement_mem style
    have hsub := hq _ hmem
    rw [enhance_prompt_eq]
    refine hsub.trans (List.IsSuffix.isInfix ⟨(p ++ ", ").data, ?_⟩)
    simp [List.append_assoc]
  · have hb : ∀ e ∈ negative_prompts.map Prod.snd,
        ("blurry, low quality" : String).data <+: e.data := by decide
    exact hb _ (negative_mem category)

/-- C10: `preprocess_text` strips leading and trailing whitespace and collapses
every internal whitespace run to a single space (its output is in
collapsed-whitespace form), maps empty or whitespace-only input to the fixed
string `"a simple image"`, and consequently never returns the empty string. -/
theorem preprocess_text_normalizes (t : String) :
    preprocess_text t ≠ "" ∧
    (t.data.all isPySpace = true → preprocess_text t = "a simple image") ∧
    Collapsed (preprocess_text t).data := by
  refine ⟨?_, ?_, ?_⟩
  · rw [preprocess_text_branches]
    split
    · decide
    · next h =>
      intro hcontra
      exact h (by simpa using congrArg String.data hcontra)
  · intro hall
    rw [preprocess_text_branches,
      pyStrip_all_space t.data (fun c hc => List.all_eq_true.mp hall c hc)]
    rfl
  · rw [preprocess_text_branches]
    split
    · refine ⟨?_, ?_, noWSRun_of_noWSRunB _ (by decide), by decide⟩
      · intro c hc
        rcases hc
        decide
      · intro c hc
        rcases hc
        decide
    · exact collapsed_joinSpace _ (pySplit_words _)

/-- C10 witness at a whitespace-only input made of a file separator, a
no-break space and two plain spaces: it maps to `"a simple image"`,
which is nonempty and collapsed. -/
theorem preprocess_text_normalizes_witness :
    preprocess_text "\x1c\xa0  " = "a simple image" ∧
    preprocess_text "\x1c\xa0  " ≠ "" ∧
    Collapsed (preprocess_text "\x1c\xa0  ").data :=
  ⟨(preprocess_text_normalizes "\x1c\xa0  ").2.1 (by decide),
   (preprocess_text_normalizes "\x1c\xa0  ").1,
   (preprocess_text_normalizes "\x1c\xa0  ").2.2⟩

/-- C5 witness at `p = "hi"`, `style = "bogus"`, `category = "weird"`. -/
theorem prompt_functions_total_witness :
    (∃ suffix, suffix ∈ enhancements.map Prod.snd ∧
       enhance_prompt "hi" "bogus" = "hi" ++ ", " ++ suffix) ∧
    create_negative_prompt "weird" ∈ negative_prompts.map Prod.snd :=
  prompt_functions_total "hi" "bogus" "weird"

/-- C6 witness at the whitespace-only prompt `"  "`. -/
theorem enhance_prompt_no_trimming_witness :
    enhance_prompt "  " "realistic" =
      "  " ++ ", photorealistic, high quality, detailed, 8k resolution" ∧
    enhance_prompt "   " "realistic" =
      "   , photorealistic, high quality, detailed, 8k resolution" ∧
    enhance_prompt "" "realistic" =
      ", photorealistic, high quality, detailed, 8k resolution" :=
  enhance_prompt_no_trimming "  "

/-- C9 witness at `p = "x"`, `style = "nope"`, `category = "nothing"`. -/
theorem prompt_table_invariants_witness :
    ("high quality" : String).data <:+: (enhance_prompt "x" "nope").data ∧
    ("blurry, low quality" : String).data <+: (create_negative_prompt "nothing").data :=
  prompt_table_invariants "x" "nope" "nothing"

end Tokenizer
